import Mathlib

/-!
Verification of the external-dns reconciliation core against its
natural-language specification.

The development shallowly embeds:
* the generic `Endpoint` data model and the plan key (normalized DNS name,
  record type, set identifier);
* the diff-and-policy planner (`planCalculate`), the ownership layer and the
  effect of successfully applying a computed `Changes` batch;
* the bounded retry wrapper for provider mutations;
* the NS1 record synthesis (TTL defaulting);
* the startup wiring in `controller/execute.go` (`buildController`,
  `selectRegistry`, the aws-sd registry override in `buildProvider`);
* the source-layer helpers (`suitableType`, `endpointsForHostname`,
  `getTargetsFromTargetAnnotation`, the event handler adapter).
-/

/-- A desired or observed DNS record group, mirroring
`endpoint.Endpoint` (DNS name, record type, targets, TTL, set identifier,
provider-specific properties, labels).  A `recordTTL` of `0` means the TTL
is not configured. -/
structure Endpoint where
  dnsName : String
  recordType : String
  setIdentifier : String
  targets : List String
  recordTTL : Int
  providerSpecific : List (String × String)
  labels : List (String × String)
deriving DecidableEq, Repr

/-- The key a reconciliation cycle indexes endpoints by:
(normalized DNS name, record type, set identifier). -/
structure PlanKey where
  name : String
  rtype : String
  setId : String
deriving DecidableEq, Repr

/-- Go `strings.TrimSuffix(s, ".")`: drop one trailing dot when present.
Strings are handled through their character lists so that every definition
evaluates. -/
def trimTrailingDot (s : String) : String :=
  if s.data.getLast? = some '.' then ⟨s.data.dropLast⟩ else s

/-- Go `strings.ToLower` over the character list. -/
def lowerString (s : String) : String :=
  ⟨s.data.map Char.toLower⟩

/-- DNS name normalization for plan keys: trailing dot removed and
case-insensitive comparison (lower-cased). -/
def normalizeDNSName (s : String) : String :=
  lowerString (trimTrailingDot s)

/-- The plan key of an endpoint. -/
def endpointKey (e : Endpoint) : PlanKey :=
  ⟨normalizeDNSName e.dnsName, e.recordType, e.setIdentifier⟩

/-- Does some endpoint of `l` carry key `k`? -/
def hasKey (l : List Endpoint) (k : PlanKey) : Bool :=
  l.any (fun e => decide (endpointKey e = k))

/-- First endpoint of `l` carrying key `k`, if any. -/
def lookupKey (l : List Endpoint) (k : PlanKey) : Option Endpoint :=
  l.find? (fun e => decide (endpointKey e = k))

/-- The three reconciliation policies: `sync`, `upsert-only`, `create-only`. -/
inductive Policy where
  | sync
  | upsertOnly
  | createOnly
deriving DecidableEq, Repr

/-- `plan.Changes`: the four ordered sequences computed by one cycle.
`updateOld` and `updateNew` are paired by index. -/
structure Changes where
  create : List Endpoint
  updateOld : List Endpoint
  updateNew : List Endpoint
  delete : List Endpoint
deriving DecidableEq, Repr

/-- The empty change set. -/
def Changes.empty : Changes := ⟨[], [], [], []⟩

/-- Modelled from the spec: the planner configuration of section 4.1 — the
ownership state maintained by the registry (the marker records map each plan
key to its owner identifier, when a marker exists), this instance's owner
identifier, the selected policy, and the managed/excluded record-type and
domain filters.  The plan package itself is not under src/; only its callers
and the spec describe it. -/
structure PlanConfig where
  ownerOf : PlanKey → Option String
  me : String
  policy : Policy
  managedFilter : Endpoint → Bool
  domainFilter : Endpoint → Bool

/-- Is the record with key `k` owned by this instance? -/
def PlanConfig.owns (pc : PlanConfig) (k : PlanKey) : Bool :=
  decide (pc.ownerOf k = some pc.me)

/-- Is the record with key `k` owned by a *different* instance? -/
def PlanConfig.foreignOwned (pc : PlanConfig) (k : PlanKey) : Bool :=
  match pc.ownerOf k with
  | none => false
  | some o => decide (o ≠ pc.me)

/-- Modelled from the spec: conflict resolution (step 5 of section 4.1) —
when the desired set contains several endpoints for the same key, the first
occurrence in input order survives and the rest are dropped. -/
def dedupeByKeyAux (seen : List PlanKey) : List Endpoint → List Endpoint
  | [] => []
  | e :: rest =>
    if endpointKey e ∈ seen then dedupeByKeyAux seen rest
    else e :: dedupeByKeyAux (endpointKey e :: seen) rest

/-- First-occurrence-wins deduplication of the desired set by plan key. -/
def dedupeByKey (l : List Endpoint) : List Endpoint :=
  dedupeByKeyAux [] l

/-- Modelled from the spec: the merge of registry-managed labels into the
desired endpoint for an update (step 3 of section 4.1): `UpdateNew` is the
desired value with the current record's registry labels merged in, without
overwriting labels the desired endpoint already carries. -/
def mergeLabels (d c : Endpoint) : Endpoint :=
  { d with labels :=
      d.labels ++ c.labels.filter (fun p => !(d.labels.any (fun q => decide (q.1 = p.1)))) }

/-- Modelled from the spec: the material-difference test of step 3 of
section 4.1 — target sets, TTL, provider-specific properties and labels are
compared. -/
def materiallyDifferent (c m : Endpoint) : Bool :=
  !(decide (c.targets = m.targets ∧ c.recordTTL = m.recordTTL ∧
            c.providerSpecific = m.providerSpecific ∧ c.labels = m.labels))

/-- Modelled from the spec: the update candidate contributed by one desired
endpoint (steps 3 and 6 of section 4.1).  A pair (UpdateOld, UpdateNew) is
produced when the key is present in current, the merged desired value is
materially different, and the record is owned by this instance. -/
def updatePair (pc : PlanConfig) (current : List Endpoint) (d : Endpoint) :
    Option (Endpoint × Endpoint) :=
  match lookupKey current (endpointKey d) with
  | none => none
  | some c =>
    if materiallyDifferent c (mergeLabels d c) && pc.owns (endpointKey d) then
      some (c, mergeLabels d c)
    else none

/-- Modelled from the spec: create candidates (steps 2 and 6 of section
4.1) — desired keys absent from current, unless the key is already owned by
a different instance. -/
def planCreates (pc : PlanConfig) (current dd : List Endpoint) : List Endpoint :=
  dd.filter (fun d =>
    !hasKey current (endpointKey d) && !pc.foreignOwned (endpointKey d))

/-- Modelled from the spec: the paired update candidates of one cycle. -/
def planUpdates (pc : PlanConfig) (current dd : List Endpoint) :
    List (Endpoint × Endpoint) :=
  dd.filterMap (updatePair pc current)

/-- Modelled from the spec: delete candidates (steps 4 and 6 of section
4.1) — current keys absent from desired that are owned by this instance and
match the managed/excluded record-type filters and the domain filter. -/
def planDeletes (pc : PlanConfig) (current dd : List Endpoint) : List Endpoint :=
  current.filter (fun c =>
    !hasKey dd (endpointKey c) && pc.owns (endpointKey c) &&
    pc.managedFilter c && pc.domainFilter c)

/-- Modelled from the spec: policy gating (step 7 of section 4.1): `sync`
permits everything, `upsert-only` drops deletes, `create-only` keeps only
creates. -/
def applyPolicy (pol : Policy) (ch : Changes) : Changes :=
  match pol with
  | .sync => ch
  | .upsertOnly => { ch with delete := [] }
  | .createOnly => { ch with updateOld := [], updateNew := [], delete := [] }

/-- Modelled from the spec: `Plan` (section 4.1) — deduplicate desired by
key, compute create/update/delete candidates, apply the ownership predicate
and then the policy. -/
def planCalculate (pc : PlanConfig) (current desired : List Endpoint) : Changes :=
  let dd := dedupeByKey desired
  let ups := planUpdates pc current dd
  applyPolicy pc.policy
    { create := planCreates pc current dd
      updateOld := ups.map Prod.fst
      updateNew := ups.map Prod.snd
      delete := planDeletes pc current dd }

/-- Modelled from the spec: the record state after successfully applying a
`Changes` batch — created and updated endpoints are present, the old values
of updates and the deleted endpoints are gone, untouched records remain. -/
def applyChangesToCurrent (current : List Endpoint) (ch : Changes) : List Endpoint :=
  ch.create ++ ch.updateNew ++
    current.filter (fun c => !hasKey (ch.updateOld ++ ch.delete) (endpointKey c))

/-- Modelled from the spec: the ownership state after successfully applying
a `Changes` batch — the registry creates or refreshes a marker with this
instance's owner id for every create and update, and removes the marker for
every delete (section 3, Ownership record; section 4.2). -/
def applyChangesToOwner (pc : PlanConfig) (ch : Changes) : PlanKey → Option String :=
  fun k =>
    if hasKey (ch.create ++ ch.updateNew) k then some pc.me
    else if hasKey ch.delete k then none
    else pc.ownerOf k

/-- The planner configuration as seen by the next cycle: same instance,
policy and filters, ownership updated by the applied batch. -/
def applyPlanConfig (pc : PlanConfig) (ch : Changes) : PlanConfig :=
  { pc with ownerOf := applyChangesToOwner pc ch }

/-- The outcome of one provider mutation attempt: success, a retryable
(rate-limit / throttling) failure, or a non-retryable failure. -/
inductive AttemptResult where
  | success
  | retryable
  | fatal
deriving DecidableEq, Repr

/-- Modelled from the spec: the retry wrapper of section 4.3 (the NS1
provider's retry loop is not under src/, only its tests are).  `f n` is the
outcome of the n-th attempt (attempt 1 counts).  The call runs until
success, a non-retryable failure, or the attempt budget is exhausted;
it returns the number of attempts made and whether the call succeeded. -/
def retryRun (f : Nat → AttemptResult) (attempt : Nat) : Nat → Nat × Bool
  | 0 => (0, false)
  | budget + 1 =>
    match f attempt with
    | .success => (1, true)
    | .fatal => (1, false)
    | .retryable =>
      if budget = 0 then (1, false)
      else
        let r := retryRun f (attempt + 1) budget
        (r.1 + 1, r.2)

/-- A retried provider mutation with attempt budget `maxRetries`. -/
def retryCall (f : Nat → AttemptResult) (maxRetries : Nat) : Nat × Bool :=
  retryRun f 1 maxRetries

/-- An NS1 record as synthesized for one change: zone, fully qualified
domain and TTL. -/
structure NS1Record where
  zone : String
  domain : String
  ttl : Int
deriving DecidableEq, Repr

/-- Modelled from the spec: `ns1BuildRecord` (not under src/, only its test
is) — Scenario D of section 8: the synthesized record takes the endpoint's
TTL when it is configured (positive) and the configured default TTL
otherwise; the domain is the endpoint's DNS name qualified with the zone
name when not already qualified. -/
def ns1BuildRecord (minTTLSeconds : Int) (zoneName : String) (e : Endpoint) : NS1Record :=
  { zone := zoneName
    domain := if zoneName.data.isSuffixOf e.dnsName.data then e.dnsName
              else e.dnsName ++ "." ++ zoneName
    ttl := if 0 < e.recordTTL then e.recordTTL else minTTLSeconds }

/-- The startup configuration values the embedded parts of
`controller/execute.go` read. -/
structure ConfigM where
  provider : String
  registry : String
  policy : String
deriving DecidableEq, Repr

/-- Modelled from the spec: the names of `plan.Policies` (the plan package
is not under src/) — `Policy ∈ {sync, upsert-only, create-only}`
(section 6). -/
def lookupPolicy (name : String) : Option Policy :=
  if name = "sync" then some .sync
  else if name = "upsert-only" then some .upsertOnly
  else if name = "create-only" then some .createOnly
  else none

/-- The recognized policy names. -/
def planPolicyNames : List String := ["sync", "upsert-only", "create-only"]

/-- The registry selected by `selectRegistry` in `controller/execute.go`;
an unknown registry name is fatal (`log.Fatalf`). -/
inductive RegistrySelection where
  | dynamodb
  | noop
  | txt
  | awssd
  | fatalUnknown (name : String)
deriving DecidableEq, Repr

/-- `selectRegistry` from `controller/execute.go`: switch on `cfg.Registry`
over dynamodb, noop, txt and aws-sd; anything else is fatal. -/
def selectRegistry (cfg : ConfigM) : RegistrySelection :=
  if cfg.registry = "dynamodb" then .dynamodb
  else if cfg.registry = "noop" then .noop
  else if cfg.registry = "txt" then .txt
  else if cfg.registry = "aws-sd" then .awssd
  else .fatalUnknown cfg.registry

/-- The aws-sd compatibility adjustment in `buildProvider`
(`controller/execute.go`): when the provider is "aws-sd" and the registry is
neither "noop" nor "aws-sd", the registry configuration value is overwritten
to "aws-sd". -/
def buildProviderAdjustRegistry (cfg : ConfigM) : ConfigM :=
  if cfg.provider = "aws-sd" then
    if cfg.registry ≠ "noop" ∧ cfg.registry ≠ "aws-sd" then
      { cfg with registry := "aws-sd" }
    else cfg
  else cfg

/-- `buildController` from `controller/execute.go`, restricted to the
configuration values it inspects: look the policy name up in
`plan.Policies`, fail with an "unknown policy" error when absent, otherwise
select the registry and return the controller ingredients. -/
def buildController (cfg : ConfigM) : Except String (Policy × RegistrySelection) :=
  match lookupPolicy cfg.policy with
  | none => .error ("unknown policy: " ++ cfg.policy)
  | some pol => .ok (pol, selectRegistry cfg)

/-- The startup outcome of `Execute` (`controller/execute.go`): a
`buildController` error is fatal (`log.Fatal`) before the reconciliation
loop is entered; otherwise the loop runs with the built controller. -/
inductive ExecPhase where
  | fatalAtStartup (msg : String)
  | loopRunning (policy : Policy) (reg : RegistrySelection)
deriving DecidableEq, Repr

/-- The `Execute` startup path from `controller/execute.go` restricted to
controller construction: build the controller, die fatally on error, enter
the loop otherwise. -/
def executeStartup (cfg : ConfigM) : ExecPhase :=
  match buildController cfg with
  | .error msg => .fatalAtStartup msg
  | .ok (pol, r) => .loopRunning pol r

/-- `endpoint.RecordTypeA`. -/
def recordTypeA : String := "A"

/-- `endpoint.RecordTypeAAAA`. -/
def recordTypeAAAA : String := "AAAA"

/-- `endpoint.RecordTypeCNAME`. -/
def recordTypeCNAME : String := "CNAME"

/-- The result of Go's `net.ParseIP` as the source layer consumes it: a
parsed IP on which only `To4` and `To16` being nil or not matter.  In the Go
standard library every IP returned by `ParseIP` has a non-nil `To16`. -/
structure GoIP where
  hasTo4 : Bool
  hasTo16 : Bool
deriving DecidableEq, Repr

/-- `suitableType` from the source layer, parameterized by the standard
library's `net.ParseIP` (an external collaborator): type A for IPs with a
4-byte form, AAAA for IPs with a 16-byte form, CNAME for everything else. -/
def suitableType (parse : String → Option GoIP) (target : String) : String :=
  if (match parse target with | some ip => ip.hasTo4 | none => false) then recordTypeA
  else if (match parse target with | some ip => ip.hasTo16 | none => false) then recordTypeAAAA
  else recordTypeCNAME

/-- The A-target list accumulated by the classification loop of
`endpointsForHostname`: targets of suitable type A, skipping those whose
string form is IPv6.  `isIPv6` stands for `isIPv6String` (not under src/).
The loop appends each target to exactly one of the three lists, so each
list is the in-order filter of the targets by its branch condition. -/
def aTargetsOf (parse : String → Option GoIP) (isIPv6 : String → Bool)
    (targets : List String) : List String :=
  targets.filter (fun t => decide (suitableType parse t = recordTypeA) && !isIPv6 t)

/-- The AAAA-target list of the classification loop: targets of suitable
type AAAA, skipping those whose string form is not IPv6. -/
def aaaaTargetsOf (parse : String → Option GoIP) (isIPv6 : String → Bool)
    (targets : List String) : List String :=
  targets.filter (fun t => decide (suitableType parse t = recordTypeAAAA) && isIPv6 t)

/-- The CNAME-target list of the classification loop: the default branch of
the switch, every target whose suitable type is neither A nor AAAA. -/
def cnameTargetsOf (parse : String → Option GoIP) (targets : List String) : List String :=
  targets.filter (fun t =>
    !decide (suitableType parse t = recordTypeA) &&
    !decide (suitableType parse t = recordTypeAAAA))

/-- `endpointsForHostname` from the source layer: build at most one endpoint
per record type carrying the non-empty classified target lists, the trailing
dot of the hostname removed, all sharing the given TTL, provider-specific
properties and set identifier, with fresh (empty) labels. -/
def endpointsForHostname (parse : String → Option GoIP) (isIPv6 : String → Bool)
    (hostname : String) (targets : List String) (ttl : Int)
    (providerSpecific : List (String × String)) (setIdentifier : String) :
    List Endpoint :=
  (if (aTargetsOf parse isIPv6 targets).isEmpty then [] else
    [{ dnsName := trimTrailingDot hostname
       recordType := recordTypeA
       setIdentifier := setIdentifier
       targets := aTargetsOf parse isIPv6 targets
       recordTTL := ttl
       providerSpecific := providerSpecific
       labels := [] }]) ++
  (if (aaaaTargetsOf parse isIPv6 targets).isEmpty then [] else
    [{ dnsName := trimTrailingDot hostname
       recordType := recordTypeAAAA
       setIdentifier := setIdentifier
       targets := aaaaTargetsOf parse isIPv6 targets
       recordTTL := ttl
       providerSpecific := providerSpecific
       labels := [] }]) ++
  (if (cnameTargetsOf parse targets).isEmpty then [] else
    [{ dnsName := trimTrailingDot hostname
       recordType := recordTypeCNAME
       setIdentifier := setIdentifier
       targets := cnameTargetsOf parse targets
       recordTTL := ttl
       providerSpecific := providerSpecific
       labels := [] }])

/-- The "target" annotation key (`annotations.TargetKey`). -/
def targetAnnotationKey : String := "external-dns.alpha.kubernetes.io/target"

/-- Annotation lookup on a map embedded as an association list. -/
def lookupAnnotation (ann : List (String × String)) (k : String) : Option String :=
  (ann.find? (fun p => decide (p.1 = k))).map Prod.snd

/-- Go `strings.Replace(s, " ", "", -1)`: remove every blank character. -/
def removeBlanks (s : String) : String :=
  ⟨s.data.filter (fun c => decide (c ≠ ' '))⟩

/-- Go `strings.Split(s, ",")` over the character list: the running chunk
plus the completed chunks after each comma. -/
def splitOnCommaAux : List Char → List Char × List (List Char)
  | [] => ([], [])
  | c :: rest =>
    let r := splitOnCommaAux rest
    if c = ',' then ([], r.1 :: r.2)
    else (c :: r.1, r.2)

/-- Go `strings.Split(s, ",")`: comma-separated chunks, never empty as a
list (splitting the empty string yields one empty chunk). -/
def splitOnComma (s : String) : List String :=
  ((splitOnCommaAux s.data).1 :: (splitOnCommaAux s.data).2).map fun cs => ⟨cs⟩

/-- `splitHostnameAnnotation` from the source layer: remove blanks, then
split on commas. -/
def splitHostnameAnnotation ( annotation : String) : List String :=
  splitOnComma (removeBlanks annotation)

/-- `getTargetsFromTargetAnnotation` from the source layer: read the
optional "target" annotation, split it, and trim the trailing dot of every
entry; an absent or empty annotation yields no targets. -/
def getTargetsFromTargetAnnotation (ann : List (String × String)) : List String :=
  match lookupAnnotation ann targetAnnotationKey with
  | none => []
  | some t =>
    if t = "" then []
    else ( splitHostnameAnnotation t).map trimTrailingDot

/-- `eventHandlerFunc.OnAdd` from the source layer: the wrapped no-payload
function is called once; the object and the initial-list flag are ignored.
The side effect of the wrapped Go closure is embedded as a state
transformer `fn`. -/
def eventHandlerOnAdd {σ α : Type} (fn : σ → σ) (_obj : α) (_isInInitialList : Bool)
    (s : σ) : σ := fn s

/-- `eventHandlerFunc.OnUpdate` from the source layer: the wrapped function
is called once; old and new objects are ignored. -/
def eventHandlerOnUpdate {σ α : Type} (fn : σ → σ) (_oldObj _newObj : α) (s : σ) : σ := fn s

/-- `eventHandlerFunc.OnDelete` from the source layer: the wrapped function
is called once; the object is ignored. -/
def eventHandlerOnDelete {σ α : Type} (fn : σ → σ) (_obj : α) (s : σ) : σ := fn s

/-- One observed source change event: an add (possibly from the informer's
initial list), an update, or a delete. -/
inductive SourceEvent (α : Type) where
  | add (obj : α) (isInInitialList : Bool)
  | update (oldObj newObj : α)
  | delete (obj : α)
deriving DecidableEq, Repr

/-- Dispatch of one informer event to the matching `eventHandlerFunc`
method. -/
def dispatchEvent {σ α : Type} (fn : σ → σ) : SourceEvent α → σ → σ
  | .add obj b, s => eventHandlerOnAdd fn obj b s
  | .update o n, s => eventHandlerOnUpdate fn o n s
  | .delete o, s => eventHandlerOnDelete fn o s

/-- A concrete Go-like IP parser used to evaluate the source-layer
theorems on closed inputs: one IPv4 address, one IPv6 address, everything
else unparsable. -/
def parseFixture : String → Option GoIP :=
  fun s =>
    if s = "1.2.3.4" then some ⟨true, true⟩
    else if s = "2001:db8::1" then some ⟨false, true⟩
    else none

/-- The CNAME endpoint produced by `endpointsForHostname` on the concrete
source-layer inputs used to evaluate the theorems. -/
def epCnameFixture : Endpoint :=
  { dnsName := "example.org"
    recordType := "CNAME"
    setIdentifier := ""
    targets := ["a.example.com."]
    recordTTL := 0
    providerSpecific := []
    labels := [] }

/-- The CNAME endpoint produced by `endpointsForHostname` when the A-typed
target is dropped for having an IPv6 string form. -/
def epShapeFixture : Endpoint :=
  { dnsName := "h"
    recordType := "CNAME"
    setIdentifier := "id"
    targets := ["x.com"]
    recordTTL := 5
    providerSpecific := []
    labels := [] }

/-- A concrete current endpoint owned by another instance. -/
def epForeign : Endpoint :=
  { dnsName := "test.foo.com"
    recordType := "A"
    setIdentifier := ""
    targets := ["2.2.2.2"]
    recordTTL := 3600
    providerSpecific := []
    labels := [] }

/-- A concrete desired endpoint asking to update `epForeign`. -/
def epDesired : Endpoint :=
  { dnsName := "test.foo.com"
    recordType := "A"
    setIdentifier := ""
    targets := ["1.1.1.1"]
    recordTTL := 3600
    providerSpecific := []
    labels := [] }

/-- A concrete planner configuration in which every record is owned by a
different instance. -/
def pcForeign : PlanConfig :=
  { ownerOf := fun _ => some "other"
    me := "self"
    policy := .sync
    managedFilter := fun _ => true
    domainFilter := fun _ => true }

theorem hasKey_iff {l : List Endpoint} {k : PlanKey} :
    hasKey l k = true ↔ ∃ e ∈ l, endpointKey e = k := by
  simp [hasKey, List.any_eq_true]

theorem hasKey_eq_false_iff {l : List Endpoint} {k : PlanKey} :
    hasKey l k = false ↔ ∀ e ∈ l, endpointKey e ≠ k := by
  simp [hasKey, List.any_eq_false]

theorem hasKey_append (a b : List Endpoint) (k : PlanKey) :
    hasKey (a ++ b) k = (hasKey a k || hasKey b k) := by
  simp [hasKey, List.any_append]

theorem hasKey_of_mem {l : List Endpoint} {e : Endpoint} (h : e ∈ l) :
    hasKey l (endpointKey e) = true :=
  hasKey_iff.mpr ⟨e, h, rfl⟩

theorem hasKey_cons (e : Endpoint) (l : List Endpoint) (k : PlanKey) :
    hasKey (e :: l) k = (decide (endpointKey e = k) || hasKey l k) := by
  simp [hasKey]

theorem hasKey_map_snd_fst {l : List (Endpoint × Endpoint)} {k : PlanKey}
    (hk : ∀ pr ∈ l, endpointKey pr.1 = endpointKey pr.2) :
    hasKey (l.map Prod.fst) k = hasKey (l.map Prod.snd) k := by
  induction l with
  | nil => rfl
  | cons pr rest ih =>
    have h1 := hk pr (by simp)
    have h2 : ∀ q ∈ rest, endpointKey q.1 = endpointKey q.2 :=
      fun q hq => hk q (by simp [hq])
    simp only [List.map_cons, hasKey_cons, h1, ih h2]

theorem hasKey_filter_imp {l : List Endpoint} {p : Endpoint → Bool} {k : PlanKey}
    (h : hasKey (l.filter p) k = true) : hasKey l k = true := by
  obtain ⟨e, he, hke⟩ := hasKey_iff.mp h
  exact hasKey_iff.mpr ⟨e, (List.mem_filter.mp he).1, hke⟩

theorem lookupKey_eq_none {l : List Endpoint} {k : PlanKey}
    (h : hasKey l k = false) : lookupKey l k = none := by
  apply List.find?_eq_none.mpr
  intro e he
  simpa using hasKey_eq_false_iff.mp h e he

theorem lookupKey_cons_pos {e : Endpoint} {k : PlanKey} (l : List Endpoint)
    (h : endpointKey e = k) : lookupKey (e :: l) k = some e := by
  simp [lookupKey, List.find?_cons, h]

theorem lookupKey_cons_neg {e : Endpoint} {k : PlanKey} (l : List Endpoint)
    (h : endpointKey e ≠ k) : lookupKey (e :: l) k = lookupKey l k := by
  simp [lookupKey, List.find?_cons, h]

theorem lookupKey_key {l : List Endpoint} {k : PlanKey} {c : Endpoint}
    (h : lookupKey l k = some c) : endpointKey c = k := by
  simpa using List.find?_some h

theorem lookupKey_mem {l : List Endpoint} {k : PlanKey} {c : Endpoint}
    (h : lookupKey l k = some c) : c ∈ l :=
  List.mem_of_find?_eq_some h

theorem lookupKey_isSome {l : List Endpoint} {k : PlanKey}
    (h : hasKey l k = true) : ∃ c, lookupKey l k = some c := by
  obtain ⟨e, he, hke⟩ := hasKey_iff.mp h
  have : (lookupKey l k).isSome = true := by
    apply List.find?_isSome.mpr
    exact ⟨e, he, by simp [hke]⟩
  exact Option.isSome_iff_exists.mp this

theorem lookupKey_append_left {a : List Endpoint} (b : List Endpoint) {k : PlanKey}
    (h : hasKey a k = true) : lookupKey (a ++ b) k = lookupKey a k := by
  induction a with
  | nil => simp [hasKey] at h
  | cons e rest ih =>
    by_cases hk : endpointKey e = k
    · rw [List.cons_append, lookupKey_cons_pos _ hk, lookupKey_cons_pos _ hk]
    · have h' : hasKey rest k = true := by
        rcases hasKey_iff.mp h with ⟨x, hx, hkx⟩
        rcases List.mem_cons.mp hx with rfl | hx'
        · exact absurd hkx hk
        · exact hasKey_iff.mpr ⟨x, hx', hkx⟩
      rw [List.cons_append, lookupKey_cons_neg _ hk, lookupKey_cons_neg _ hk]
      exact ih h'

theorem lookupKey_append_right {a : List Endpoint} (b : List Endpoint) {k : PlanKey}
    (h : hasKey a k = false) : lookupKey (a ++ b) k = lookupKey b k := by
  induction a with
  | nil => rfl
  | cons e rest ih =>
    have hke : endpointKey e ≠ k := hasKey_eq_false_iff.mp h e (by simp)
    have h' : hasKey rest k = false :=
      hasKey_eq_false_iff.mpr fun x hx => hasKey_eq_false_iff.mp h x (by simp [hx])
    rw [List.cons_append, lookupKey_cons_neg _ hke]
    exact ih h'

theorem lookupKey_filter {l : List Endpoint} {p : Endpoint → Bool} {k : PlanKey}
    (h : ∀ e ∈ l, endpointKey e = k → p e = true) :
    lookupKey (l.filter p) k = lookupKey l k := by
  induction l with
  | nil => rfl
  | cons e rest ih =>
    have ih' := ih (fun x hx => h x (by simp [hx]))
    by_cases hk : endpointKey e = k
    · have hp : p e = true := h e (by simp) hk
      simp only [List.filter_cons, hp, if_true]
      rw [lookupKey_cons_pos _ hk, lookupKey_cons_pos _ hk]
    · cases hpe : p e with
      | true =>
        simp only [List.filter_cons, hpe, if_true]
        rw [lookupKey_cons_neg _ hk, lookupKey_cons_neg _ hk]
        exact ih'
      | false =>
        simp only [List.filter_cons, hpe, Bool.false_eq_true, if_false]
        rw [ih']
        rw [lookupKey_cons_neg _ hk]

theorem lookupKey_nodup_mem {l : List Endpoint} {e : Endpoint}
    (hnd : (l.map endpointKey).Nodup) (he : e ∈ l) :
    lookupKey l (endpointKey e) = some e := by
  induction l with
  | nil => cases he
  | cons a rest ih =>
    rcases List.mem_cons.mp he with rfl | he'
    · exact lookupKey_cons_pos _ rfl
    · have hk : endpointKey a ≠ endpointKey e := by
        intro hEq
        exact (List.nodup_cons.mp (by simpa using hnd)).1
          (hEq ▸ List.mem_map_of_mem endpointKey he')
      rw [lookupKey_cons_neg _ hk]
      exact ih (List.nodup_cons.mp (by simpa using hnd)).2 he'

theorem dedupeByKeyAux_subset {l : List Endpoint} :
    ∀ {seen : List PlanKey} {e : Endpoint}, e ∈ dedupeByKeyAux seen l → e ∈ l := by
  induction l with
  | nil => intro seen e h; cases h
  | cons a rest ih =>
    intro seen e h
    by_cases hs : endpointKey a ∈ seen
    · simp only [dedupeByKeyAux, if_pos hs] at h
      exact List.mem_cons_of_mem a (ih h)
    · simp only [dedupeByKeyAux, if_neg hs] at h
      rcases List.mem_cons.mp h with rfl | h'
      · exact List.mem_cons_self _ _
      · exact List.mem_cons_of_mem a (ih h')

theorem dedupeByKeyAux_not_seen {l : List Endpoint} :
    ∀ {seen : List PlanKey} {e : Endpoint}, e ∈ dedupeByKeyAux seen l →
      endpointKey e ∉ seen := by
  induction l with
  | nil => intro seen e h; cases h
  | cons a rest ih =>
    intro seen e h
    by_cases hs : endpointKey a ∈ seen
    · simp only [dedupeByKeyAux, if_pos hs] at h
      exact ih h
    · simp only [dedupeByKeyAux, if_neg hs] at h
      rcases List.mem_cons.mp h with rfl | h'
      · exact hs
      · intro hmem
        exact ih h' (List.mem_cons_of_mem _ hmem)

theorem dedupeByKeyAux_nodup (l : List Endpoint) :
    ∀ seen : List PlanKey, ((dedupeByKeyAux seen l).map endpointKey).Nodup := by
  induction l with
  | nil => intro seen; simp [dedupeByKeyAux]
  | cons a rest ih =>
    intro seen
    by_cases hs : endpointKey a ∈ seen
    · simp only [dedupeByKeyAux, if_pos hs]
      exact ih seen
    · simp only [dedupeByKeyAux, if_neg hs, List.map_cons]
      refine List.nodup_cons.mpr ⟨?_, ih _⟩
      intro hmem
      obtain ⟨e, he, hke⟩ := List.mem_map.mp hmem
      exact dedupeByKeyAux_not_seen he (by simp [hke])

theorem dedupeByKey_nodup (l : List Endpoint) :
    ((dedupeByKey l).map endpointKey).Nodup :=
  dedupeByKeyAux_nodup l []

theorem dedupeByKey_key_inj {desired : List Endpoint} {d1 d2 : Endpoint}
    (h1 : d1 ∈ dedupeByKey desired) (h2 : d2 ∈ dedupeByKey desired)
    (hk : endpointKey d1 = endpointKey d2) : d1 = d2 :=
  List.inj_on_of_nodup_map (dedupeByKey_nodup desired) h1 h2 hk

theorem endpointKey_mergeLabels (d c : Endpoint) :
    endpointKey (mergeLabels d c) = endpointKey d := rfl

theorem labels_filter_self (d : Endpoint) :
    d.labels.filter (fun p => !(d.labels.any (fun q => decide (q.1 = p.1)))) = [] := by
  rw [List.filter_eq_nil_iff]
  intro p hp
  simp only [Bool.not_eq_true', Bool.not_eq_false]
  exact List.any_eq_true.mpr ⟨p, hp, by simp⟩

theorem mergeLabels_self (d : Endpoint) : mergeLabels d d = d := by
  unfold mergeLabels
  rw [labels_filter_self, List.append_nil]

theorem mergeLabels_idem (d c : Endpoint) :
    mergeLabels d (mergeLabels d c) = mergeLabels d c := by
  unfold mergeLabels
  simp only
  rw [List.filter_append, labels_filter_self, List.nil_append, List.filter_filter]
  congr 2
  apply List.filter_congr
  intro p _
  rw [Bool.and_self]

theorem materiallyDifferent_self (c : Endpoint) : materiallyDifferent c c = false := by
  simp [materiallyDifferent]

theorem updatePair_some {pc : PlanConfig} {current : List Endpoint} {d : Endpoint}
    {pr : Endpoint × Endpoint} (h : updatePair pc current d = some pr) :
    lookupKey current (endpointKey d) = some pr.1 ∧
    pr.2 = mergeLabels d pr.1 ∧
    materiallyDifferent pr.1 pr.2 = true ∧
    pc.owns (endpointKey d) = true := by
  unfold updatePair at h
  split at h
  · exact absurd h (by simp)
  next c heq =>
    split at h
    next hcond =>
      rw [Bool.and_eq_true] at hcond
      obtain ⟨h1, h2⟩ := hcond
      cases h
      exact ⟨heq, rfl, h1, h2⟩
    · exact absurd h (by simp)

theorem updatePair_fst_key {pc : PlanConfig} {current : List Endpoint} {d : Endpoint}
    {pr : Endpoint × Endpoint} (h : updatePair pc current d = some pr) :
    endpointKey pr.1 = endpointKey d :=
  lookupKey_key (updatePair_some h).1

theorem updatePair_snd_key {pc : PlanConfig} {current : List Endpoint} {d : Endpoint}
    {pr : Endpoint × Endpoint} (h : updatePair pc current d = some pr) :
    endpointKey pr.2 = endpointKey d := by
  rw [(updatePair_some h).2.1, endpointKey_mergeLabels]

theorem mem_planUpdates {pc : PlanConfig} {current dd : List Endpoint}
    {pr : Endpoint × Endpoint} :
    pr ∈ planUpdates pc current dd ↔ ∃ d ∈ dd, updatePair pc current d = some pr := by
  simp [planUpdates, List.mem_filterMap]

theorem planUpdates_fst_snd_keys {pc : PlanConfig} {current dd : List Endpoint} :
    ∀ pr ∈ planUpdates pc current dd, endpointKey pr.1 = endpointKey pr.2 := by
  intro pr hpr
  obtain ⟨d, _, hup⟩ := mem_planUpdates.mp hpr
  rw [updatePair_fst_key hup, updatePair_snd_key hup]

theorem planUpdates_snd_keys_sublist (pc : PlanConfig) (current dd : List Endpoint) :
    (((planUpdates pc current dd).map Prod.snd).map endpointKey).Sublist
      (dd.map endpointKey) := by
  induction dd with
  | nil => simp [planUpdates]
  | cons d rest ih =>
    simp only [planUpdates, List.filterMap_cons] at *
    cases h : updatePair pc current d with
    | none => exact ih.cons (endpointKey d)
    | some pr =>
      simp only [List.map_cons]
      rw [updatePair_snd_key h]
      exact ih.cons₂ (endpointKey d)

theorem planUpdates_snd_keys_nodup {pc : PlanConfig} {current desired : List Endpoint} :
    (((planUpdates pc current (dedupeByKey desired)).map Prod.snd).map endpointKey).Nodup :=
  (planUpdates_snd_keys_sublist pc current (dedupeByKey desired)).nodup
    (dedupeByKey_nodup desired)

theorem planUpdates_at_key {pc : PlanConfig} {current desired : List Endpoint}
    {d : Endpoint} {pr : Endpoint × Endpoint}
    (hd : d ∈ dedupeByKey desired)
    (hpr : pr ∈ planUpdates pc current (dedupeByKey desired))
    (hk : endpointKey pr.2 = endpointKey d) :
    updatePair pc current d = some pr := by
  obtain ⟨d', hd', hup⟩ := mem_planUpdates.mp hpr
  have hkd : endpointKey d' = endpointKey d := by rw [← updatePair_snd_key hup, hk]
  have : d' = d := dedupeByKey_key_inj hd' hd hkd
  exact this ▸ hup

theorem hasKey_planCreates_imp {pc : PlanConfig} {current dd : List Endpoint}
    {k : PlanKey} (h : hasKey (planCreates pc current dd) k = true) :
    hasKey dd k = true ∧ hasKey current k = false ∧ pc.foreignOwned k = false := by
  obtain ⟨e, he, hke⟩ := hasKey_iff.mp h
  obtain ⟨hmem, hcond⟩ := List.mem_filter.mp he
  rw [Bool.and_eq_true] at hcond
  obtain ⟨h1, h2⟩ := hcond
  refine ⟨hasKey_iff.mpr ⟨e, hmem, hke⟩, ?_, ?_⟩
  · rw [← hke]; simpa using h1
  · rw [← hke]; simpa using h2

theorem mem_planCreates {pc : PlanConfig} {current dd : List Endpoint} {d : Endpoint} :
    d ∈ planCreates pc current dd ↔
      d ∈ dd ∧ hasKey current (endpointKey d) = false ∧
      pc.foreignOwned (endpointKey d) = false := by
  simp [planCreates, List.mem_filter, Bool.not_eq_true']

theorem mem_planDeletes {pc : PlanConfig} {current dd : List Endpoint} {c : Endpoint} :
    c ∈ planDeletes pc current dd ↔
      c ∈ current ∧ hasKey dd (endpointKey c) = false ∧
      pc.owns (endpointKey c) = true ∧ pc.managedFilter c = true ∧
      pc.domainFilter c = true := by
  simp [planDeletes, List.mem_filter, Bool.not_eq_true', and_assoc]

theorem hasKey_planUpdates_snd_imp {pc : PlanConfig} {current dd : List Endpoint}
    {k : PlanKey} (h : hasKey ((planUpdates pc current dd).map Prod.snd) k = true) :
    hasKey current k = true := by
  obtain ⟨e, he, hke⟩ := hasKey_iff.mp h
  obtain ⟨pr, hpr, rfl⟩ := List.mem_map.mp he
  obtain ⟨d, _, hup⟩ := mem_planUpdates.mp hpr
  have hc : pr.1 ∈ current := lookupKey_mem (updatePair_some hup).1
  have : endpointKey pr.1 = k := by
    rw [updatePair_fst_key hup, ← updatePair_snd_key hup, hke]
  exact hasKey_iff.mpr ⟨pr.1, hc, this⟩

theorem hasKey_planDeletes_imp {pc : PlanConfig} {current dd : List Endpoint}
    {k : PlanKey} (h : hasKey (planDeletes pc current dd) k = true) :
    hasKey current k = true ∧ hasKey dd k = false := by
  obtain ⟨e, he, hke⟩ := hasKey_iff.mp h
  obtain ⟨hmem, hdd, _, _, _⟩ := mem_planDeletes.mp he
  exact ⟨hasKey_iff.mpr ⟨e, hmem, hke⟩, hke ▸ hdd⟩

theorem hasKey_planUpdates_snd_none {pc : PlanConfig} {current desired : List Endpoint}
    {d : Endpoint} (hd : d ∈ dedupeByKey desired)
    (h : updatePair pc current d = none) :
    hasKey ((planUpdates pc current (dedupeByKey desired)).map Prod.snd)
      (endpointKey d) = false := by
  rw [hasKey_eq_false_iff]
  intro e he hke
  obtain ⟨pr, hpr, rfl⟩ := List.mem_map.mp he
  have := planUpdates_at_key hd hpr hke
  rw [h] at this
  cases this

/-- The candidate `Changes` of one cycle before policy gating. -/
def rawChanges (pc : PlanConfig) (current desired : List Endpoint) : Changes :=
  { create := planCreates pc current (dedupeByKey desired)
    updateOld := (planUpdates pc current (dedupeByKey desired)).map Prod.fst
    updateNew := (planUpdates pc current (dedupeByKey desired)).map Prod.snd
    delete := planDeletes pc current (dedupeByKey desired) }

theorem planCalculate_eq_applyPolicy (pc : PlanConfig) (current desired : List Endpoint) :
    planCalculate pc current desired = applyPolicy pc.policy (rawChanges pc current desired) :=
  rfl

theorem hasKey_planDeletes_false_of_dd {pc : PlanConfig} {current dd : List Endpoint}
    {k : PlanKey} (h : hasKey dd k = true) :
    hasKey (planDeletes pc current dd) k = false := by
  cases hD : hasKey (planDeletes pc current dd) k
  · rfl
  · have := (hasKey_planDeletes_imp hD).2
    rw [h] at this
    cases this

theorem hasKey_planDeletes_false_of_current {pc : PlanConfig} {current dd : List Endpoint}
    {k : PlanKey} (h : hasKey current k = false) :
    hasKey (planDeletes pc current dd) k = false := by
  cases hD : hasKey (planDeletes pc current dd) k
  · rfl
  · have := (hasKey_planDeletes_imp hD).1
    rw [h] at this
    cases this

theorem hasKey_planCreates_false_of_current {pc : PlanConfig} {current dd : List Endpoint}
    {k : PlanKey} (h : hasKey current k = true) :
    hasKey (planCreates pc current dd) k = false := by
  cases hC : hasKey (planCreates pc current dd) k
  · rfl
  · have := (hasKey_planCreates_imp hC).2.1
    rw [h] at this
    cases this

theorem hasKey_planCreates_false_of_foreign {pc : PlanConfig} {current dd : List Endpoint}
    {k : PlanKey} (h : pc.foreignOwned k = true) :
    hasKey (planCreates pc current dd) k = false := by
  cases hC : hasKey (planCreates pc current dd) k
  · rfl
  · have := (hasKey_planCreates_imp hC).2.2
    rw [h] at this
    cases this

theorem hasKey_planUpdates_snd_false_of_current {pc : PlanConfig}
    {current dd : List Endpoint} {k : PlanKey} (h : hasKey current k = false) :
    hasKey ((planUpdates pc current dd).map Prod.snd) k = false := by
  cases hU : hasKey ((planUpdates pc current dd).map Prod.snd) k
  · rfl
  · have := hasKey_planUpdates_snd_imp hU
    rw [h] at this
    cases this

theorem hasKey_UO_eq_UN (pc : PlanConfig) (current dd : List Endpoint) (k : PlanKey) :
    hasKey ((planUpdates pc current dd).map Prod.fst) k =
    hasKey ((planUpdates pc current dd).map Prod.snd) k :=
  hasKey_map_snd_fst planUpdates_fst_snd_keys

theorem planCreates_keys_nodup (pc : PlanConfig) (current desired : List Endpoint) :
    ((planCreates pc current (dedupeByKey desired)).map endpointKey).Nodup :=
  ((List.filter_sublist _).map endpointKey).nodup (dedupeByKey_nodup desired)

theorem applyPlanConfig_me (pc : PlanConfig) (ch : Changes) :
    (applyPlanConfig pc ch).me = pc.me := rfl

theorem applyPlanConfig_policy (pc : PlanConfig) (ch : Changes) :
    (applyPlanConfig pc ch).policy = pc.policy := rfl

theorem owner_unchanged {pc : PlanConfig} {ch : Changes} {k : PlanKey}
    (h1 : hasKey ch.create k = false) (h2 : hasKey ch.updateNew k = false)
    (h3 : hasKey ch.delete k = false) :
    (applyPlanConfig pc ch).ownerOf k = pc.ownerOf k := by
  simp [applyPlanConfig, applyChangesToOwner, hasKey_append, h1, h2, h3]

theorem owns_unchanged {pc : PlanConfig} {ch : Changes} {k : PlanKey}
    (h1 : hasKey ch.create k = false) (h2 : hasKey ch.updateNew k = false)
    (h3 : hasKey ch.delete k = false) :
    (applyPlanConfig pc ch).owns k = pc.owns k := by
  unfold PlanConfig.owns
  rw [owner_unchanged h1 h2 h3, applyPlanConfig_me]

theorem foreignOwned_unchanged (pc : PlanConfig) {ch : Changes} {k : PlanKey}
    (h1 : hasKey ch.create k = false) (h2 : hasKey ch.updateNew k = false)
    (h3 : hasKey ch.delete k = false) :
    (applyPlanConfig pc ch).foreignOwned k = pc.foreignOwned k := by
  unfold PlanConfig.foreignOwned
  rw [owner_unchanged h1 h2 h3, applyPlanConfig_me]

theorem updatePair_none_of_lookup_none {pc : PlanConfig} {current : List Endpoint}
    {d : Endpoint} (h : lookupKey current (endpointKey d) = none) :
    updatePair pc current d = none := by
  unfold updatePair
  rw [h]

theorem updatePair_cond_false_of_none {pc : PlanConfig} {current : List Endpoint}
    {d c0 : Endpoint} (hlook : lookupKey current (endpointKey d) = some c0)
    (hup : updatePair pc current d = none) :
    (materiallyDifferent c0 (mergeLabels d c0) && pc.owns (endpointKey d)) = false := by
  unfold updatePair at hup
  rw [hlook] at hup
  dsimp only at hup
  cases hb : (materiallyDifferent c0 (mergeLabels d c0) && pc.owns (endpointKey d))
  · rfl
  · rw [if_pos hb] at hup
    cases hup

theorem updatePair_self_merged {pc : PlanConfig} {cur : List Endpoint} {d m : Endpoint}
    (hlook : lookupKey cur (endpointKey d) = some m)
    (hm : mergeLabels d m = m) : updatePair pc cur d = none := by
  unfold updatePair
  rw [hlook]
  dsimp only
  rw [hm, materiallyDifferent_self]
  simp

theorem run2_creates_empty (pc : PlanConfig) (current desired : List Endpoint) (ch : Changes)
    (hc : ch.create = planCreates pc current (dedupeByKey desired))
    (hu : (ch.updateOld = (planUpdates pc current (dedupeByKey desired)).map Prod.fst ∧
           ch.updateNew = (planUpdates pc current (dedupeByKey desired)).map Prod.snd) ∨
          (ch.updateOld = [] ∧ ch.updateNew = []))
    (hd : ch.delete = planDeletes pc current (dedupeByKey desired) ∨ ch.delete = []) :
    planCreates (applyPlanConfig pc ch) (applyChangesToCurrent current ch)
      (dedupeByKey desired) = [] := by
  unfold planCreates
  rw [List.filter_eq_nil_iff]
  intro d hdmem hcontra
  rw [Bool.and_eq_true, Bool.not_eq_true', Bool.not_eq_true'] at hcontra
  obtain ⟨hc1, hc2⟩ := hcontra
  have hkDD : hasKey (dedupeByKey desired) (endpointKey d) = true := hasKey_of_mem hdmem
  have hDel : hasKey ch.delete (endpointKey d) = false := by
    rcases hd with hd | hd
    · rw [hd]
      exact hasKey_planDeletes_false_of_dd hkDD
    · rw [hd]
      rfl
  cases hcur : hasKey current (endpointKey d) with
  | true =>
    cases hUN : hasKey ch.updateNew (endpointKey d) with
    | true =>
      have : hasKey (applyChangesToCurrent current ch) (endpointKey d) = true := by
        simp [applyChangesToCurrent, hasKey_append, hUN]
      simp [this] at hc1
    | false =>
      have hUO : hasKey ch.updateOld (endpointKey d) = false := by
        rcases hu with ⟨huo, hun⟩ | ⟨huo, hun⟩
        · rw [huo, hasKey_UO_eq_UN, ← hun]
          exact hUN
        · rw [huo]
          rfl
      obtain ⟨e, he, hke⟩ := hasKey_iff.mp hcur
      have hmemF : e ∈ current.filter
          (fun c => !hasKey (ch.updateOld ++ ch.delete) (endpointKey c)) := by
        refine List.mem_filter.mpr ⟨he, ?_⟩
        rw [hke, hasKey_append, hUO, hDel]
        rfl
      have : hasKey (applyChangesToCurrent current ch) (endpointKey d) = true := by
        have hF : hasKey (current.filter
            (fun c => !hasKey (ch.updateOld ++ ch.delete) (endpointKey c)))
            (endpointKey d) = true := hasKey_iff.mpr ⟨e, hmemF, hke⟩
        unfold applyChangesToCurrent
        rw [hasKey_append, hasKey_append, hF]
        simp
      simp [this] at hc1
  | false =>
    cases hforeign : pc.foreignOwned (endpointKey d) with
    | false =>
      have hdC : d ∈ ch.create := by
        rw [hc]
        exact mem_planCreates.mpr ⟨hdmem, hcur, hforeign⟩
      have : hasKey (applyChangesToCurrent current ch) (endpointKey d) = true := by
        simp [applyChangesToCurrent, hasKey_append, hasKey_of_mem hdC]
      simp [this] at hc1
    | true =>
      have h1 : hasKey ch.create (endpointKey d) = false := by
        rw [hc]
        exact hasKey_planCreates_false_of_foreign hforeign
      have h2 : hasKey ch.updateNew (endpointKey d) = false := by
        rcases hu with ⟨huo, hun⟩ | ⟨huo, hun⟩
        · rw [hun]
          exact hasKey_planUpdates_snd_false_of_current hcur
        · rw [hun]
          rfl
      have := foreignOwned_unchanged pc h1 h2 hDel
      rw [hc2, hforeign] at this
      cases this

theorem run2_updates_empty (pc : PlanConfig) (current desired : List Endpoint) (ch : Changes)
    (hc : ch.create = planCreates pc current (dedupeByKey desired))
    (huo : ch.updateOld = (planUpdates pc current (dedupeByKey desired)).map Prod.fst)
    (hun : ch.updateNew = (planUpdates pc current (dedupeByKey desired)).map Prod.snd)
    (hd : ch.delete = planDeletes pc current (dedupeByKey desired) ∨ ch.delete = []) :
    planUpdates (applyPlanConfig pc ch) (applyChangesToCurrent current ch)
      (dedupeByKey desired) = [] := by
  unfold planUpdates
  rw [List.filterMap_eq_nil_iff]
  intro d hdmem
  have hkDD : hasKey (dedupeByKey desired) (endpointKey d) = true := hasKey_of_mem hdmem
  have hDel : hasKey ch.delete (endpointKey d) = false := by
    rcases hd with hd | hd
    · rw [hd]
      exact hasKey_planDeletes_false_of_dd hkDD
    · rw [hd]
      rfl
  cases hcur : hasKey current (endpointKey d) with
  | false =>
    have h2 : hasKey ch.updateNew (endpointKey d) = false := by
      rw [hun]
      exact hasKey_planUpdates_snd_false_of_current hcur
    cases hforeign : pc.foreignOwned (endpointKey d) with
    | true =>
      have h1 : hasKey ch.create (endpointKey d) = false := by
        rw [hc]
        exact hasKey_planCreates_false_of_foreign hforeign
      have hF : hasKey (current.filter
          (fun c => !hasKey (ch.updateOld ++ ch.delete) (endpointKey c)))
          (endpointKey d) = false := by
        cases hF' : hasKey (current.filter
            (fun c => !hasKey (ch.updateOld ++ ch.delete) (endpointKey c)))
            (endpointKey d) with
        | false => rfl
        | true =>
          have := hasKey_filter_imp hF'
          rw [hcur] at this
          cases this
      have hlook : lookupKey (applyChangesToCurrent current ch) (endpointKey d) = none := by
        apply lookupKey_eq_none
        unfold applyChangesToCurrent
        rw [hasKey_append, hasKey_append, h1, h2, hF]
        rfl
      exact updatePair_none_of_lookup_none hlook
    | false =>
      have hdC : d ∈ ch.create := by
        rw [hc]
        exact mem_planCreates.mpr ⟨hdmem, hcur, hforeign⟩
      have hnodup : (ch.create.map endpointKey).Nodup := by
        rw [hc]
        exact planCreates_keys_nodup pc current desired
      have hlookC : lookupKey ch.create (endpointKey d) = some d :=
        lookupKey_nodup_mem hnodup hdC
      have hlook : lookupKey (applyChangesToCurrent current ch) (endpointKey d) = some d := by
        unfold applyChangesToCurrent
        have hAB : hasKey (ch.create ++ ch.updateNew) (endpointKey d) = true := by
          rw [hasKey_append, hasKey_of_mem hdC]
          rfl
        rw [lookupKey_append_left _ hAB, lookupKey_append_left _ (hasKey_of_mem hdC)]
        exact hlookC
      exact updatePair_self_merged hlook (mergeLabels_self d)
  | true =>
    have h1 : hasKey ch.create (endpointKey d) = false := by
      rw [hc]
      exact hasKey_planCreates_false_of_current hcur
    cases hup : updatePair pc current d with
    | some pr =>
      have hprU : pr ∈ planUpdates pc current (dedupeByKey desired) :=
        mem_planUpdates.mpr ⟨d, hdmem, hup⟩
      have hsndU : pr.2 ∈ ch.updateNew := by
        rw [hun]
        exact List.mem_map_of_mem Prod.snd hprU
      have hnodup : (ch.updateNew.map endpointKey).Nodup := by
        rw [hun]
        exact planUpdates_snd_keys_nodup
      have hkpr : endpointKey pr.2 = endpointKey d := updatePair_snd_key hup
      have hlookUN : lookupKey ch.updateNew (endpointKey d) = some pr.2 := by
        rw [← hkpr]
        exact lookupKey_nodup_mem hnodup hsndU
      have hUN : hasKey ch.updateNew (endpointKey d) = true := by
        rw [← hkpr]
        exact hasKey_of_mem hsndU
      have hlook : lookupKey (applyChangesToCurrent current ch) (endpointKey d) =
          some pr.2 := by
        unfold applyChangesToCurrent
        have hAB : hasKey (ch.create ++ ch.updateNew) (endpointKey d) = true := by
          rw [hasKey_append, h1, hUN]
          rfl
        rw [lookupKey_append_left _ hAB, lookupKey_append_right _ h1]
        exact hlookUN
      have hm : mergeLabels d pr.2 = pr.2 := by
        rw [(updatePair_some hup).2.1]
        exact mergeLabels_idem d pr.1
      exact updatePair_self_merged hlook hm
    | none =>
      have hUN : hasKey ch.updateNew (endpointKey d) = false := by
        rw [hun]
        exact hasKey_planUpdates_snd_none hdmem hup
      have hUO : hasKey ch.updateOld (endpointKey d) = false := by
        rw [huo, hasKey_UO_eq_UN, ← hun]
        exact hUN
      obtain ⟨c0, hlookcur⟩ := lookupKey_isSome hcur
      have hlook : lookupKey (applyChangesToCurrent current ch) (endpointKey d) =
          some c0 := by
        unfold applyChangesToCurrent
        have hAB : hasKey (ch.create ++ ch.updateNew) (endpointKey d) = false := by
          rw [hasKey_append, h1, hUN]
          rfl
        rw [List.append_assoc, lookupKey_append_right _ h1,
          lookupKey_append_right _ hUN]
        rw [lookupKey_filter]
        · exact hlookcur
        · intro e hemem hke
          rw [hke, hasKey_append, hUO, hDel]
          rfl
      have hcond := updatePair_cond_false_of_none hlookcur hup
      have howns : (applyPlanConfig pc ch).owns (endpointKey d) =
          pc.owns (endpointKey d) := owns_unchanged h1 hUN hDel
      unfold updatePair
      rw [hlook]
      dsimp only
      rw [howns, hcond]
      simp

theorem run2_deletes_empty (pc : PlanConfig) (current desired : List Endpoint) (ch : Changes)
    (hc : ch.create = planCreates pc current (dedupeByKey desired))
    (huo : ch.updateOld = (planUpdates pc current (dedupeByKey desired)).map Prod.fst)
    (hun : ch.updateNew = (planUpdates pc current (dedupeByKey desired)).map Prod.snd)
    (hd : ch.delete = planDeletes pc current (dedupeByKey desired)) :
    planDeletes (applyPlanConfig pc ch) (applyChangesToCurrent current ch)
      (dedupeByKey desired) = [] := by
  unfold planDeletes
  rw [List.filter_eq_nil_iff]
  intro c hcmem hcontra
  simp only [Bool.and_eq_true, Bool.not_eq_true'] at hcontra
  obtain ⟨⟨⟨hnd, howns⟩, hmf⟩, hdf⟩ := hcontra
  unfold applyChangesToCurrent at hcmem
  rcases List.mem_append.mp hcmem with hAB | hF
  · rcases List.mem_append.mp hAB with hA | hB
    · rw [hc] at hA
      have : hasKey (dedupeByKey desired) (endpointKey c) = true :=
        hasKey_of_mem (mem_planCreates.mp hA).1
      rw [hnd] at this
      cases this
    · rw [hun] at hB
      obtain ⟨pr, hpr, rfl⟩ := List.mem_map.mp hB
      obtain ⟨d, hdmem, hup⟩ := mem_planUpdates.mp hpr
      have : hasKey (dedupeByKey desired) (endpointKey pr.2) = true := by
        rw [updatePair_snd_key hup]
        exact hasKey_of_mem hdmem
      rw [hnd] at this
      cases this
  · obtain ⟨hccur, hpred⟩ := List.mem_filter.mp hF
    rw [Bool.not_eq_true'] at hpred
    rw [hasKey_append] at hpred
    have hUO : hasKey ch.updateOld (endpointKey c) = false := by
      cases h' : hasKey ch.updateOld (endpointKey c)
      · rfl
      · rw [h'] at hpred
        cases hpred
    have hDelc : hasKey ch.delete (endpointKey c) = false := by
      cases h' : hasKey ch.delete (endpointKey c)
      · rfl
      · rw [h'] at hpred
        simp at hpred
    have h1 : hasKey ch.create (endpointKey c) = false := by
      rw [hc]
      exact hasKey_planCreates_false_of_current (hasKey_of_mem hccur)
    have h2 : hasKey ch.updateNew (endpointKey c) = false := by
      rw [hun, ← hasKey_UO_eq_UN, ← huo]
      exact hUO
    have howns' : pc.owns (endpointKey c) = true := by
      rw [← owns_unchanged h1 h2 hDelc]
      exact howns
    have hcD : c ∈ ch.delete := by
      rw [hd]
      exact mem_planDeletes.mpr ⟨hccur, hnd, howns', hmf, hdf⟩
    have := hasKey_of_mem hcD
    rw [hDelc] at this
    cases this

theorem applyPolicy_sync_eq_empty (pc : PlanConfig) (cur desired : List Endpoint)
    (h1 : planCreates pc cur (dedupeByKey desired) = [])
    (h2 : planUpdates pc cur (dedupeByKey desired) = [])
    (h3 : planDeletes pc cur (dedupeByKey desired) = []) :
    applyPolicy .sync (rawChanges pc cur desired) = Changes.empty := by
  unfold rawChanges
  rw [h1, h2, h3]
  rfl

theorem applyPolicy_upsertOnly_eq_empty (pc : PlanConfig) (cur desired : List Endpoint)
    (h1 : planCreates pc cur (dedupeByKey desired) = [])
    (h2 : planUpdates pc cur (dedupeByKey desired) = []) :
    applyPolicy .upsertOnly (rawChanges pc cur desired) = Changes.empty := by
  unfold rawChanges
  rw [h1, h2]
  rfl

theorem applyPolicy_createOnly_eq_empty (pc : PlanConfig) (cur desired : List Endpoint)
    (h1 : planCreates pc cur (dedupeByKey desired) = []) :
    applyPolicy .createOnly (rawChanges pc cur desired) = Changes.empty := by
  unfold rawChanges
  rw [h1]
  rfl

/-- C1: for all (current, desired, policy and ownership state), running the
planner again with `current` replaced by the result of successfully applying
the previously computed `Changes` — records created/updated, old values and
deletions gone, ownership markers refreshed accordingly — and the same
`desired`, yields an empty `Changes` set: `Plan` is idempotent across
repeated runs. -/
theorem plan_idempotent (pc : PlanConfig) (current desired : List Endpoint) :
    planCalculate (applyPlanConfig pc (planCalculate pc current desired))
      (applyChangesToCurrent current (planCalculate pc current desired)) desired =
    Changes.empty := by
  rw [planCalculate_eq_applyPolicy, planCalculate_eq_applyPolicy, applyPlanConfig_policy]
  cases hpol : pc.policy with
  | sync =>
    exact applyPolicy_sync_eq_empty _ _ _
      (run2_creates_empty pc current desired _ rfl (Or.inl ⟨rfl, rfl⟩) (Or.inl rfl))
      (run2_updates_empty pc current desired _ rfl rfl rfl (Or.inl rfl))
      (run2_deletes_empty pc current desired _ rfl rfl rfl rfl)
  | upsertOnly =>
    exact applyPolicy_upsertOnly_eq_empty _ _ _
      (run2_creates_empty pc current desired _ rfl (Or.inl ⟨rfl, rfl⟩) (Or.inr rfl))
      (run2_updates_empty pc current desired _ rfl rfl rfl (Or.inr rfl))
  | createOnly =>
    exact applyPolicy_createOnly_eq_empty _ _ _
      (run2_creates_empty pc current desired _ rfl (Or.inr ⟨rfl, rfl⟩) (Or.inr rfl))

/-- C2: for every current endpoint not owned by instance I, a plan computed
by instance I never emits an UpdateOld/UpdateNew pair or a Delete for that
endpoint's key: update and delete candidates on records not owned by this
instance are always dropped. -/
theorem plan_ownership_safety (pc : PlanConfig) (current desired : List Endpoint)
    (e : Endpoint) (_he : e ∈ current)
    (hown : pc.owns (endpointKey e) = false) :
    (∀ u ∈ (planCalculate pc current desired).updateOld,
      endpointKey u ≠ endpointKey e) ∧
    (∀ u ∈ (planCalculate pc current desired).updateNew,
      endpointKey u ≠ endpointKey e) ∧
    (∀ u ∈ (planCalculate pc current desired).delete,
      endpointKey u ≠ endpointKey e) := by
  have hUO : ∀ u ∈ (planUpdates pc current (dedupeByKey desired)).map Prod.fst,
      endpointKey u ≠ endpointKey e := by
    intro u hu hkeq
    obtain ⟨pr, hpr, rfl⟩ := List.mem_map.mp hu
    obtain ⟨d, _, hup⟩ := mem_planUpdates.mp hpr
    have howns := (updatePair_some hup).2.2.2
    rw [← updatePair_fst_key hup, hkeq, hown] at howns
    cases howns
  have hUN : ∀ u ∈ (planUpdates pc current (dedupeByKey desired)).map Prod.snd,
      endpointKey u ≠ endpointKey e := by
    intro u hu hkeq
    obtain ⟨pr, hpr, rfl⟩ := List.mem_map.mp hu
    obtain ⟨d, _, hup⟩ := mem_planUpdates.mp hpr
    have howns := (updatePair_some hup).2.2.2
    rw [← updatePair_snd_key hup, hkeq, hown] at howns
    cases howns
  have hDel : ∀ u ∈ planDeletes pc current (dedupeByKey desired),
      endpointKey u ≠ endpointKey e := by
    intro u hu hkeq
    have howns := (mem_planDeletes.mp hu).2.2.1
    rw [hkeq, hown] at howns
    cases howns
  rw [planCalculate_eq_applyPolicy]
  cases pc.policy with
  | sync => exact ⟨hUO, hUN, hDel⟩
  | upsertOnly => exact ⟨hUO, hUN, fun u hu => absurd hu (List.not_mem_nil u)⟩
  | createOnly =>
    exact ⟨fun u hu => absurd hu (List.not_mem_nil u),
      fun u hu => absurd hu (List.not_mem_nil u),
      fun u hu => absurd hu (List.not_mem_nil u)⟩

theorem plan_ownership_safety_witness :
    epForeign ∈ [epForeign] ∧
    pcForeign.owns (endpointKey epForeign) = false ∧
    (∀ u ∈ (planCalculate pcForeign [epForeign] [epDesired]).delete,
      endpointKey u ≠ endpointKey epForeign) :=
  ⟨by decide, by decide,
   (plan_ownership_safety pcForeign [epForeign] [epDesired] epForeign
      (by decide) (by decide)).2.2⟩

theorem retryRun_always_retryable (f : Nat → AttemptResult)
    (h : ∀ n, f n = .retryable) :
    ∀ (budget attempt : Nat), retryRun f attempt budget = (budget, false) := by
  intro budget
  induction budget with
  | zero => intro attempt; rfl
  | succ b ih =>
    intro attempt
    unfold retryRun
    rw [h attempt]
    cases hb : b with
    | zero => simp
    | succ b' =>
      rw [if_neg (by simp)]
      rw [← hb, ih (attempt + 1)]

/-- C3: with the retry wrapper, a provider record mutation that always
fails with a retryable (rate-limit) error and retry budget `maxRetries = R`
makes exactly R attempts and returns an error; a mutation that fails once
with a retryable error and then succeeds makes exactly 2 attempts and
returns success (for any budget of at least 2). -/
theorem retry_attempt_counts :
    (∀ (f : Nat → AttemptResult) (R : Nat), (∀ n, f n = .retryable) →
      retryCall f R = (R, false)) ∧
    (∀ (f : Nat → AttemptResult) (R : Nat), f 1 = .retryable → f 2 = .success →
      2 ≤ R → retryCall f R = (2, true)) := by
  constructor
  · intro f R h
    exact retryRun_always_retryable f h R 1
  · intro f R h1 h2 hR
    obtain ⟨b, rfl⟩ : ∃ b, R = b + 2 := ⟨R - 2, by omega⟩
    unfold retryCall retryRun
    rw [h1]
    rw [if_neg (by simp)]
    unfold retryRun
    rw [h2]

theorem retry_attempt_counts_witness :
    retryCall (fun _ => AttemptResult.retryable) 3 = (3, false) ∧
    retryCall (fun n => if n = 1 then AttemptResult.retryable else AttemptResult.success) 5 =
      (2, true) :=
  ⟨retry_attempt_counts.1 _ 3 (fun _ => rfl),
   retry_attempt_counts.2 _ 5 rfl rfl (by decide)⟩

/-- C4: when building an NS1 record from an endpoint whose TTL is unset and
a default TTL of 300 is configured, the synthesized record's TTL is 300;
when the endpoint's TTL is explicitly set to 3600, the synthesized record's
TTL is 3600. -/
theorem ns1_build_record_ttl (zoneName : String) (e : Endpoint) :
    (e.recordTTL = 0 → (ns1BuildRecord 300 zoneName e).ttl = 300) ∧
    (e.recordTTL = 3600 → (ns1BuildRecord 300 zoneName e).ttl = 3600) := by
  constructor
  · intro h
    simp [ns1BuildRecord, h]
  · intro h
    simp [ns1BuildRecord, h]

theorem ns1_build_record_ttl_witness :
    (ns1BuildRecord 300 "foo.com"
      { dnsName := "new", recordType := "A", setIdentifier := "",
        targets := ["target"], recordTTL := 0, providerSpecific := [],
        labels := [] }).ttl = 300 ∧
    (ns1BuildRecord 300 "foo.com"
      { dnsName := "new-b", recordType := "A", setIdentifier := "",
        targets := ["target"], recordTTL := 3600, providerSpecific := [],
        labels := [] }).ttl = 3600 :=
  ⟨(ns1_build_record_ttl "foo.com" _).1 rfl,
   (ns1_build_record_ttl "foo.com" _).2 rfl⟩

/-- C5: for every configured policy name outside {sync, upsert-only,
create-only}, controller construction fails with an "unknown policy" error
and `Execute` terminates fatally at startup; the reconciliation loop is
never entered, so the configuration error cannot surface mid-loop. -/
theorem unknown_policy_fatal_at_startup (cfg : ConfigM)
    (h : cfg.policy ∉ planPolicyNames) :
    buildController cfg = .error ("unknown policy: " ++ cfg.policy) ∧
    executeStartup cfg = .fatalAtStartup ("unknown policy: " ++ cfg.policy) ∧
    ∀ pol reg, executeStartup cfg ≠ .loopRunning pol reg := by
  have hl : lookupPolicy cfg.policy = none := by
    simp only [planPolicyNames, List.mem_cons, List.mem_singleton, not_or] at h
    obtain ⟨h1, h2, h3⟩ := h
    simp [lookupPolicy, h1, h2, h3]
  refine ⟨?_, ?_, ?_⟩
  · simp [buildController, hl]
  · simp [executeStartup, buildController, hl]
  · intro pol reg
    simp [executeStartup, buildController, hl]

theorem unknown_policy_fatal_at_startup_witness :
    ("bogus" ∉ planPolicyNames) ∧
    executeStartup { provider := "aws", registry := "txt", policy := "bogus" } =
      .fatalAtStartup ("unknown policy: " ++ "bogus") :=
  ⟨by decide,
   (unknown_policy_fatal_at_startup
      { provider := "aws", registry := "txt", policy := "bogus" } (by decide)).2.1⟩

/-- C10: when the configured provider is "aws-sd" and the configured
registry is neither "noop" nor "aws-sd", `buildProvider` overwrites the
registry configuration value to "aws-sd", so the subsequently selected
registry is the AWS-SD registry. -/
theorem awssd_registry_override (cfg : ConfigM)
    (hp : cfg.provider = "aws-sd") (h1 : cfg.registry ≠ "noop")
    (h2 : cfg.registry ≠ "aws-sd") :
    (buildProviderAdjustRegistry cfg).registry = "aws-sd" ∧
    selectRegistry (buildProviderAdjustRegistry cfg) = .awssd := by
  have hadj : buildProviderAdjustRegistry cfg = { cfg with registry := "aws-sd" } := by
    unfold buildProviderAdjustRegistry
    rw [if_pos hp, if_pos ⟨h1, h2⟩]
  rw [hadj]
  constructor
  · rfl
  · simp [selectRegistry]

theorem awssd_registry_override_witness :
    (buildProviderAdjustRegistry
      { provider := "aws-sd", registry := "txt", policy := "sync" }).registry = "aws-sd" ∧
    selectRegistry (buildProviderAdjustRegistry
      { provider := "aws-sd", registry := "txt", policy := "sync" }) = .awssd :=
  awssd_registry_override { provider := "aws-sd", registry := "txt", policy := "sync" }
    rfl (by decide) (by decide)

/-- C6: every observed source change event — add (including objects in the
informer's initial list), update, or delete — invokes the subscribed
no-payload notify function exactly once: each handler applies the wrapped
function once regardless of the delivered object, and processing a list of
events applies it exactly once per event, as a counter shows. -/
theorem event_handler_notifies_once {σ α : Type} (fn : σ → σ) :
    (∀ (e : SourceEvent α) (s : σ), dispatchEvent fn e s = fn s) ∧
    (∀ (events : List (SourceEvent α)) (n : Nat),
      events.foldl (fun c e => dispatchEvent Nat.succ e c) n = n + events.length) := by
  constructor
  · intro e s
    cases e <;> rfl
  · intro events
    induction events with
    | nil => intro n; simp
    | cons e rest ih =>
      intro n
      have hstep : dispatchEvent Nat.succ e n = n + 1 := by cases e <;> rfl
      simp only [List.foldl_cons, hstep, List.length_cons, ih]
      omega

theorem mem_aTargetsOf {parse : String → Option GoIP} {isIPv6 : String → Bool}
    {ts : List String} {s : String} (h : s ∈ aTargetsOf parse isIPv6 ts) :
    suitableType parse s = recordTypeA ∧ isIPv6 s = false := by
  obtain ⟨hmem, hcond⟩ := List.mem_filter.mp h
  rw [Bool.and_eq_true] at hcond
  exact ⟨by simpa using hcond.1, by simpa using hcond.2⟩

theorem mem_aaaaTargetsOf {parse : String → Option GoIP} {isIPv6 : String → Bool}
    {ts : List String} {s : String} (h : s ∈ aaaaTargetsOf parse isIPv6 ts) :
    suitableType parse s = recordTypeAAAA ∧ isIPv6 s = true := by
  obtain ⟨hmem, hcond⟩ := List.mem_filter.mp h
  rw [Bool.and_eq_true] at hcond
  exact ⟨by simpa using hcond.1, hcond.2⟩

theorem mem_cnameTargetsOf {parse : String → Option GoIP}
    {ts : List String} {s : String} (h : s ∈ cnameTargetsOf parse ts) :
    suitableType parse s ≠ recordTypeA ∧ suitableType parse s ≠ recordTypeAAAA := by
  obtain ⟨hmem, hcond⟩ := List.mem_filter.mp h
  rw [Bool.and_eq_true] at hcond
  exact ⟨by simpa using hcond.1, by simpa using hcond.2⟩

/-- C7: trailing dots are normalized away at the source layer — every
endpoint returned by `endpointsForHostname` has `dnsName` equal to the input
hostname with its trailing dot removed, and the targets parsed by
`getTargetsFromTargetAnnotation` are exactly the comma-separated chunks of
the present, non-empty "target" annotation, each with its trailing dot
trimmed; in particular every parsed target is the dot-trimmed form of a
chunk of that annotation. -/
theorem trailing_dots_normalized (parse : String → Option GoIP) (isIPv6 : String → Bool)
    (hostname : String) (targets : List String) (ttl : Int)
    (ps : List (String × String)) (si : String) (ann : List (String × String)) :
    (∀ ep ∈ endpointsForHostname parse isIPv6 hostname targets ttl ps si,
      ep.dnsName = trimTrailingDot hostname) ∧
    (∀ raw, lookupAnnotation ann targetAnnotationKey = some raw → raw ≠ "" →
      getTargetsFromTargetAnnotation ann =
        ( splitHostnameAnnotation raw).map trimTrailingDot) ∧
    (∀ t ∈ getTargetsFromTargetAnnotation ann, ∃ raw chunk,
      lookupAnnotation ann targetAnnotationKey = some raw ∧
      chunk ∈ splitHostnameAnnotation raw ∧ t = trimTrailingDot chunk) := by
  refine ⟨?_, ?_, ?_⟩
  · intro ep hep
    unfold endpointsForHostname at hep
    rcases List.mem_append.mp hep with h | h
    · rcases List.mem_append.mp h with h' | h'
      · split at h'
        · cases h'
        · rw [List.mem_singleton] at h'
          subst h'
          rfl
      · split at h'
        · cases h'
        · rw [List.mem_singleton] at h'
          subst h'
          rfl
    · split at h
      · cases h
      · rw [List.mem_singleton] at h
        subst h
        rfl
  · intro raw hraw hne
    unfold getTargetsFromTargetAnnotation
    rw [hraw]
    dsimp only
    rw [if_neg hne]
  · intro t ht
    unfold getTargetsFromTargetAnnotation at ht
    cases hraw : lookupAnnotation ann targetAnnotationKey with
    | none =>
      rw [hraw] at ht
      cases ht
    | some raw =>
      rw [hraw] at ht
      dsimp only at ht
      by_cases hne : raw = ""
      · rw [if_pos hne] at ht
        cases ht
      · rw [if_neg hne] at ht
        obtain ⟨chunk, hchunk, rfl⟩ := List.mem_map.mp ht
        exact ⟨raw, chunk, rfl, hchunk, rfl⟩

theorem trailing_dots_normalized_witness :
    epCnameFixture ∈
      endpointsForHostname parseFixture (fun _ => false) "example.org."
        ["a.example.com."] 0 [] "" ∧
    epCnameFixture.dnsName = trimTrailingDot "example.org." ∧
    lookupAnnotation [(targetAnnotationKey, "www.example.com.")] targetAnnotationKey =
      some "www.example.com." ∧
    ("www.example.com." : String) ≠ "" ∧
    getTargetsFromTargetAnnotation [(targetAnnotationKey, "www.example.com.")] =
      ( splitHostnameAnnotation "www.example.com.").map trimTrailingDot ∧
    getTargetsFromTargetAnnotation [(targetAnnotationKey, "www.example.com.")] =
      ["www.example.com"] ∧
    "www.example.com" ∈ getTargetsFromTargetAnnotation
      [(targetAnnotationKey, "www.example.com.")] ∧
    (∃ raw chunk,
      lookupAnnotation [(targetAnnotationKey, "www.example.com.")] targetAnnotationKey =
        some raw ∧
      chunk ∈ splitHostnameAnnotation raw ∧
      "www.example.com" = trimTrailingDot chunk) :=
  ⟨by decide,
   (trailing_dots_normalized parseFixture (fun _ => false) "example.org."
      ["a.example.com."] 0 [] "" [(targetAnnotationKey, "www.example.com.")]).1
      _ (by decide),
   by decide,
   by decide,
   (trailing_dots_normalized parseFixture (fun _ => false) "example.org."
      ["a.example.com."] 0 [] "" [(targetAnnotationKey, "www.example.com.")]).2.1
      "www.example.com." (by decide) (by decide),
   by decide,
   by decide,
   (trailing_dots_normalized parseFixture (fun _ => false) "example.org."
      ["a.example.com."] 0 [] "" [(targetAnnotationKey, "www.example.com.")]).2.2
      "www.example.com" (by decide)⟩

theorem parseFixtureGo : ∀ s ip, parseFixture s = some ip → ip.hasTo16 = true := by
  intro s ip h
  unfold parseFixture at h
  split at h
  · cases h
    rfl
  · split at h
    · cases h
      rfl
    · cases h

/-- C8: `suitableType` returns "A" exactly when the target parses as an IP
with a 4-byte form, "AAAA" when it parses as an IP without a 4-byte form
(every parsed IP has a 16-byte form), and "CNAME" when it does not parse as
an IP at all. -/
theorem suitable_type_classifies (parse : String → Option GoIP)
    (hGo : ∀ s ip, parse s = some ip → ip.hasTo16 = true) (t : String) :
    (∀ ip, parse t = some ip → ip.hasTo4 = true → suitableType parse t = recordTypeA) ∧
    (∀ ip, parse t = some ip → ip.hasTo4 = false → suitableType parse t = recordTypeAAAA) ∧
    (parse t = none → suitableType parse t = recordTypeCNAME) := by
  refine ⟨?_, ?_, ?_⟩
  · intro ip hp h4
    simp [suitableType, hp, h4]
  · intro ip hp h4
    simp [suitableType, hp, h4, hGo t ip hp]
  · intro hp
    simp [suitableType, hp]

theorem suitable_type_classifies_witness :
    suitableType parseFixture "1.2.3.4" = recordTypeA ∧
    suitableType parseFixture "2001:db8::1" = recordTypeAAAA ∧
    suitableType parseFixture "foo.example.com" = recordTypeCNAME :=
  ⟨(suitable_type_classifies parseFixture parseFixtureGo "1.2.3.4").1
      ⟨true, true⟩ (by decide) rfl,
   (suitable_type_classifies parseFixture parseFixtureGo "2001:db8::1").2.1
      ⟨false, true⟩ (by decide) rfl,
   (suitable_type_classifies parseFixture parseFixtureGo "foo.example.com").2.2
      (by decide)⟩

/-- C9: `endpointsForHostname` returns at most three endpoints — at most one
each of record type A, AAAA and CNAME, each with a non-empty target list and
the shared TTL, provider-specific properties and set identifier — and every
target whose suitable type is A but whose string form is IPv6, or whose
suitable type is AAAA but whose string form is not IPv6, is dropped and
appears in no returned endpoint. -/
theorem endpoints_for_hostname_shape (parse : String → Option GoIP)
    (isIPv6 : String → Bool) (hostname : String) (targets : List String)
    (ttl : Int) (ps : List (String × String)) (si : String) :
    (endpointsForHostname parse isIPv6 hostname targets ttl ps si).length ≤ 3 ∧
    ((endpointsForHostname parse isIPv6 hostname targets ttl ps si).map
        Endpoint.recordType).Sublist [recordTypeA, recordTypeAAAA, recordTypeCNAME] ∧
    (∀ ep ∈ endpointsForHostname parse isIPv6 hostname targets ttl ps si,
      ep.targets ≠ [] ∧ ep.recordTTL = ttl ∧ ep.providerSpecific = ps ∧
      ep.setIdentifier = si) ∧
    (∀ t, suitableType parse t = recordTypeA → isIPv6 t = true →
      ∀ ep ∈ endpointsForHostname parse isIPv6 hostname targets ttl ps si,
        t ∉ ep.targets) ∧
    (∀ t, suitableType parse t = recordTypeAAAA → isIPv6 t = false →
      ∀ ep ∈ endpointsForHostname parse isIPv6 hostname targets ttl ps si,
        t ∉ ep.targets) := by
  refine ⟨?_, ?_, ?_, ?_, ?_⟩
  · unfold endpointsForHostname
    split <;> split <;> split <;> simp
  · unfold endpointsForHostname
    split <;> split <;> split <;> simp
  · intro ep hep
    unfold endpointsForHostname at hep
    rcases List.mem_append.mp hep with h | h
    · rcases List.mem_append.mp h with h' | h'
      · revert h'
        split
        · intro h'
          cases h'
        next hne =>
          intro h'
          rw [List.mem_singleton] at h'
          subst h'
          refine ⟨?_, rfl, rfl, rfl⟩
          intro hnil
          dsimp only at hnil
          exact hne (by rw [hnil]; rfl)
      · revert h'
        split
        · intro h'
          cases h'
        next hne =>
          intro h'
          rw [List.mem_singleton] at h'
          subst h'
          refine ⟨?_, rfl, rfl, rfl⟩
          intro hnil
          dsimp only at hnil
          exact hne (by rw [hnil]; rfl)
    · revert h
      split
      · intro h
        cases h
      next hne =>
        intro h
        rw [List.mem_singleton] at h
        subst h
        refine ⟨?_, rfl, rfl, rfl⟩
        intro hnil
        dsimp only at hnil
        exact hne (by rw [hnil]; rfl)
  · intro t hA h6 ep hep htmem
    unfold endpointsForHostname at hep
    rcases List.mem_append.mp hep with h | h
    · rcases List.mem_append.mp h with h' | h'
      · split at h'
        · cases h'
        · rw [List.mem_singleton] at h'
          subst h'
          dsimp only at htmem
          have h6' := (mem_aTargetsOf htmem).2
          rw [h6] at h6'
          cases h6'
      · split at h'
        · cases h'
        · rw [List.mem_singleton] at h'
          subst h'
          dsimp only at htmem
          have hAA := (mem_aaaaTargetsOf htmem).1
          rw [hA] at hAA
          simp [recordTypeA, recordTypeAAAA] at hAA
    · split at h
      · cases h
      · rw [List.mem_singleton] at h
        subst h
        dsimp only at htmem
        exact (mem_cnameTargetsOf htmem).1 hA
  · intro t hAA h6 ep hep htmem
    unfold endpointsForHostname at hep
    rcases List.mem_append.mp hep with h | h
    · rcases List.mem_append.mp h with h' | h'
      · split at h'
        · cases h'
        · rw [List.mem_singleton] at h'
          subst h'
          dsimp only at htmem
          have hA := (mem_aTargetsOf htmem).1
          rw [hAA] at hA
          simp [recordTypeA, recordTypeAAAA] at hA
      · split at h'
        · cases h'
        · rw [List.mem_singleton] at h'
          subst h'
          dsimp only at htmem
          have h6' := (mem_aaaaTargetsOf htmem).2
          rw [h6] at h6'
          cases h6'
    · split at h
      · cases h
      · rw [List.mem_singleton] at h
        subst h
        dsimp only at htmem
        exact (mem_cnameTargetsOf htmem).2 hAA

theorem endpoints_for_hostname_shape_witness :
    suitableType parseFixture "1.2.3.4" = recordTypeA ∧
    (fun _ : String => true) "1.2.3.4" = true ∧
    epShapeFixture ∈
      endpointsForHostname parseFixture (fun _ => true) "h."
        ["1.2.3.4", "x.com"] 5 [] "id" ∧
    "1.2.3.4" ∉ epShapeFixture.targets :=
  ⟨by decide, rfl, by decide,
   (endpoints_for_hostname_shape parseFixture (fun _ => true) "h."
      ["1.2.3.4", "x.com"] 5 [] "id").2.2.2.1 "1.2.3.4" (by decide) rfl
      _ (by decide)⟩
